import Mathlib

/-!
# Verification of the Tokenizer backend (`src/backend/main.py`)

Shallow embedding of the three helper functions of the FastAPI backend:
`tokenize_text_helper`, `get_vocabulary_helper` and `get_stats_helper`.

The vocabulary encoder (the `tiktoken` library) is an external collaborator;
it is modelled as an abstract `Encoding` structure carrying exactly the
operations the backend calls: `n_vocab`, `encode`, and `decode` on a list of
token IDs.  `decode` returns `Option String`: `none` models the Python call
raising an exception (caught by the backend's `try`/`except`).
-/

namespace Tokenizer

/-- The external vocabulary encoder (a `tiktoken` `Encoding` object), with the
fields the backend uses: `name`, `n_vocab`, `encode`, and `decode` (on a list
of token IDs; `none` models the call raising an exception). -/
structure Encoding where
  name : String
  n_vocab : Nat
  encode : String → List Int
  decode : List Int → Option String

/-- Python's `range(a, b)` over (possibly negative) integers:
`[a, a+1, ..., b-1]`, empty when `b ≤ a`. -/
def pyRange (a b : Int) : List Int :=
  (List.range (b - a).toNat).map fun (k : Nat) => a + (k : Int)

/-- Python's substring test `needle in hay` on strings (contiguous
subsequence of code points). -/
def pyInStr (needle hay : String) : Bool :=
  decide (needle.data <:+: hay.data)

/-- One record of the `vocabulary` list built by `get_vocabulary_helper`:
`{"token_id": i, "token_string": s, "length": n}`. -/
structure VocabEntry where
  token_id : Int
  token_string : String
  length : Nat
  deriving DecidableEq, Repr

/-- The dictionary returned by `get_vocabulary_helper`. -/
structure VocabResult where
  vocabulary : List VocabEntry
  total_size : Nat
  showing_start : Int
  showing_end : Int
  count : Nat
  search_term : String
  deriving DecidableEq, Repr

/-- The body of one iteration of the `for i in range(start, end)` loop of
`get_vocabulary_helper`: the (zero- or one-element) list of entries appended
for token ID `i`.  `try: token_str = encoding.decode([i]) ...` becomes a match
on `enc.decode [i]`; the `except` branch appends the `[SPECIAL_TOKEN]`
placeholder only when `search == ""`. -/
def vocabStep (enc : Encoding) (search : String) (i : Int) : List VocabEntry :=
  match enc.decode [i] with
  | some token_str =>
    if search = "" ∨ pyInStr search.toLower token_str.toLower then
      [⟨i, token_str, token_str.length⟩]
    else []
  | none =>
    if search = "" then [⟨i, "[SPECIAL_TOKEN]", 0⟩] else []

/-- `get_vocabulary_helper(start, limit, search)` of `src/backend/main.py`,
with the process-wide `tiktoken.get_encoding("cl100k_base")` encoding passed
as the parameter `enc`. -/
def get_vocabulary_helper (enc : Encoding) (start limit : Int) (search : String) :
    VocabResult :=
  let total_vocab_size := enc.n_vocab
  let e : Int := min (start + limit) (total_vocab_size : Int)
  let vocab_list := (pyRange start e).flatMap (vocabStep enc search)
  { vocabulary := vocab_list
    total_size := total_vocab_size
    showing_start := start
    showing_end := e
    count := vocab_list.length
    search_term := search }

/-- One record of `token_details` built by `tokenize_text_helper`. -/
structure TokenDetail where
  position : Nat
  token_id : Int
  token_string : String
  byte_length : Nat
  deriving DecidableEq, Repr

/-- The dictionary returned by `tokenize_text_helper`. -/
structure TokenizeResult where
  tokens : List Int
  token_strings : List String
  count : Nat
  token_details : List TokenDetail
  model : String
  original_text : String
  deriving DecidableEq, Repr

/-- `tokenize_text_helper(text, model)` of `src/backend/main.py`, with
`tiktoken.encoding_for_model` passed as the parameter `resolve` (`none`
models it raising for an unknown model).  A failing `encoding.decode([token])`
in the list comprehension propagates, so the whole call returns `none`. -/
def tokenize_text_helper (resolve : String → Option Encoding)
    (text model : String) : Option TokenizeResult :=
  match resolve model with
  | none => none
  | some encoding =>
    let tokens := encoding.encode text
    match tokens.mapM (fun token => encoding.decode [token]) with
    | none => none
    | some token_strings =>
      some
        { tokens := tokens
          token_strings := token_strings
          count := tokens.length
          token_details :=
            (tokens.zip token_strings).enum.map fun p =>
              { position := p.1 + 1
                token_id := p.2.1
                token_string := p.2.2
                byte_length := p.2.2.utf8ByteSize }
          model := model
          original_text := text }

/-- The dictionary returned by `get_stats_helper`. -/
structure Stats where
  encoding_name : String
  total_tokens : Nat
  description : String
  supported_models : List String
  deriving DecidableEq, Repr

/-- `get_stats_helper()` of `src/backend/main.py`, with the process-wide
`tiktoken.get_encoding("cl100k_base")` encoding passed as the parameter
`enc`. -/
def get_stats_helper (enc : Encoding) : Stats :=
  { encoding_name := enc.name
    total_tokens := enc.n_vocab
    description := "GPT-3.5/GPT-4 vocabulary (cl100k_base)"
    supported_models := ["gpt-3.5-turbo", "gpt-4", "gpt-4-turbo"] }

/-! ## Basic lemmas about the embedding -/

theorem mem_pyRange {a b i : Int} : i ∈ pyRange a b ↔ a ≤ i ∧ i < b := by
  unfold pyRange
  rw [List.mem_map]
  constructor
  · rintro ⟨k, hk, rfl⟩
    rw [List.mem_range] at hk
    omega
  · rintro ⟨h1, h2⟩
    exact ⟨(i - a).toNat, List.mem_range.mpr (by omega), by omega⟩

theorem pyRange_eq_nil {a b : Int} (h : b ≤ a) : pyRange a b = [] := by
  unfold pyRange
  have h0 : (b - a).toNat = 0 := by omega
  rw [h0]
  rfl

theorem pyRange_pairwise (a b : Int) : (pyRange a b).Pairwise (· < ·) := by
  unfold pyRange
  exact (List.pairwise_lt_range _).map _ (fun x y h => by omega)

/-- The Boolean "this token ID contributes an entry" predicate implicit in the
loop body of `get_vocabulary_helper`. -/
def vocabKeep (enc : Encoding) (search : String) (i : Int) : Bool :=
  match enc.decode [i] with
  | some token_str => search == "" || pyInStr search.toLower token_str.toLower
  | none => search == ""

theorem vocabStep_map_token_id (enc : Encoding) (search : String) (i : Int) :
    (vocabStep enc search i).map VocabEntry.token_id
      = if vocabKeep enc search i then [i] else [] := by
  unfold vocabStep vocabKeep
  cases h : enc.decode [i] <;> simp only
  · split <;> simp_all
  · split <;> simp_all

theorem vocabKeep_of_empty_search (enc : Encoding) (i : Int) :
    vocabKeep enc "" i = true := by
  unfold vocabKeep
  cases enc.decode [i] <;> simp

theorem flatMap_vocabStep_map_token_id (enc : Encoding) (search : String) :
    ∀ l : List Int,
      ((l.flatMap (vocabStep enc search)).map VocabEntry.token_id)
        = l.filter (vocabKeep enc search)
  | [] => rfl
  | i :: l => by
    rw [List.flatMap_cons, List.map_append, vocabStep_map_token_id,
      flatMap_vocabStep_map_token_id enc search l, List.filter_cons]
    split <;> simp_all

theorem vocab_map_token_id (enc : Encoding) (start limit : Int) (search : String) :
    ((get_vocabulary_helper enc start limit search).vocabulary).map VocabEntry.token_id
      = (pyRange start (min (start + limit) (enc.n_vocab : Int))).filter
          (vocabKeep enc search) := by
  unfold get_vocabulary_helper
  exact flatMap_vocabStep_map_token_id enc search _

theorem token_id_of_mem_vocabStep {enc : Encoding} {search : String} {i : Int}
    {e : VocabEntry} (h : e ∈ vocabStep enc search i) : e.token_id = i := by
  unfold vocabStep at h
  cases hd : enc.decode [i] <;> rw [hd] at h <;> split at h <;> simp_all

theorem vocabStep_decode_none {enc : Encoding} {search : String} {i : Int}
    (h : enc.decode [i] = none) :
    vocabStep enc search i
      = if search = "" then [⟨i, "[SPECIAL_TOKEN]", 0⟩] else [] := by
  unfold vocabStep
  rw [h]

theorem vocabStep_decode_some {enc : Encoding} {search : String} {i : Int}
    {s : String} (h : enc.decode [i] = some s) :
    vocabStep enc search i
      = if search = "" ∨ pyInStr search.toLower s.toLower = true
        then [⟨i, s, s.length⟩] else [] := by
  unfold vocabStep
  rw [h]

theorem mem_vocab_iff {enc : Encoding} {start limit : Int} {search : String}
    {e : VocabEntry} :
    e ∈ (get_vocabulary_helper enc start limit search).vocabulary ↔
      e.token_id ∈ pyRange start (min (start + limit) (enc.n_vocab : Int)) ∧
        e ∈ vocabStep enc search e.token_id := by
  show e ∈ (pyRange start _).flatMap (vocabStep enc search) ↔ _
  rw [List.mem_flatMap]
  constructor
  · rintro ⟨i, hi, he⟩
    have hid := token_id_of_mem_vocabStep he
    subst hid
    exact ⟨hi, he⟩
  · rintro ⟨hi, he⟩
    exact ⟨e.token_id, hi, he⟩

/-! ## Concrete encoders used to instantiate the theorems -/

/-- A small concrete stand-in for the external `cl100k_base` encoding:
five token IDs, ID `2` has no stable string form (its decode fails), the
others decode to fixed strings; `encode` maps each character to its
alphabet index. -/
def testEnc : Encoding where
  name := "cl100k_base"
  n_vocab := 5
  encode := fun s => s.data.map fun c => (c.toNat : Int) - 97
  decode := fun l =>
    match l with
    | [i] =>
      if i = 2 then none
      else if i = 0 then some "Hello"
      else if i = 1 then some " world"
      else if i = 3 then some ""
      else if i = 4 then some "he"
      else none
    | _ => none

/-- A model resolver for `tiktoken.encoding_for_model`: only
`"gpt-3.5-turbo"` resolves. -/
def testResolve : String → Option Encoding :=
  fun m => if m = "gpt-3.5-turbo" then some testEnc else none

/-! ## Claims -/

/-- C1: for every call to the vocabulary page builder with `start ≥ 0` and
`limit > 0`, the returned page reports `showing_start = start` and
`showing_end = min (start + limit) total_size`, where `total_size` is the
encoder's vocabulary size, independently of the search filter. -/
theorem vocab_showing_window (enc : Encoding) (start limit : Int) (search : String)
    (hs : 0 ≤ start) (hl : 0 < limit) :
    (get_vocabulary_helper enc start limit search).showing_start = start ∧
    (get_vocabulary_helper enc start limit search).showing_end
      = min (start + limit) (enc.n_vocab : Int) ∧
    (get_vocabulary_helper enc start limit search).total_size = enc.n_vocab :=
  ⟨rfl, rfl, rfl⟩

/-- Witness for C1 at `start = 1`, `limit = 2`, a non-empty search. -/
theorem vocab_showing_window_witness :
    (0 : Int) ≤ 1 ∧ (0 : Int) < 2 ∧
    ((get_vocabulary_helper testEnc 1 2 "o").showing_start = 1 ∧
     (get_vocabulary_helper testEnc 1 2 "o").showing_end
       = min (1 + 2) ((testEnc.n_vocab : Int)) ∧
     (get_vocabulary_helper testEnc 1 2 "o").total_size = testEnc.n_vocab) :=
  ⟨by decide, by decide, vocab_showing_window testEnc 1 2 "o" (by decide) (by decide)⟩

/-- C2 counterexample: with the vocabulary size `5` of `testEnc`, calling the
page builder at `start = 7 > 5`, `limit = 1` returns
`showing_end = 5 ≠ 7 = start`, refuting `showing_end = showing_start = start`. -/
theorem vocab_start_past_end_counterexample :
    (get_vocabulary_helper testEnc 7 1 "").showing_start = 7 ∧
    (get_vocabulary_helper testEnc 7 1 "").showing_end = 5 ∧
    (get_vocabulary_helper testEnc 7 1 "").showing_end
      ≠ (get_vocabulary_helper testEnc 7 1 "").showing_start := by
  refine ⟨rfl, by decide, by decide⟩

/-- C2 (amended): for every call with `start ≥ total_size`, no error is raised
and the result is an empty vocabulary list with `showing_start = start` and
`showing_end = min (start + limit) total_size` (equal to `start` only in the
boundary case `start = total_size` when `limit ≥ 0`). -/
theorem vocab_start_past_end (enc : Encoding) (start limit : Int) (search : String)
    (h : (enc.n_vocab : Int) ≤ start) :
    (get_vocabulary_helper enc start limit search).vocabulary = [] ∧
    (get_vocabulary_helper enc start limit search).showing_start = start ∧
    (get_vocabulary_helper enc start limit search).showing_end
      = min (start + limit) (enc.n_vocab : Int) := by
  refine ⟨?_, rfl, rfl⟩
  show (pyRange start (min (start + limit) (enc.n_vocab : Int))).flatMap _ = []
  rw [pyRange_eq_nil (le_trans (min_le_right _ _) h)]
  rfl

/-- Witness for C2 (amended) at `start = 7`, past the size `5` of `testEnc`. -/
theorem vocab_start_past_end_witness :
    ((testEnc.n_vocab : Int) ≤ 7) ∧
    ((get_vocabulary_helper testEnc 7 1 "").vocabulary = [] ∧
     (get_vocabulary_helper testEnc 7 1 "").showing_start = 7 ∧
     (get_vocabulary_helper testEnc 7 1 "").showing_end
       = min (7 + 1) ((testEnc.n_vocab : Int))) :=
  ⟨by decide, vocab_start_past_end testEnc 7 1 "" (by decide)⟩

/-- C3: for every ID in the scanned window whose decode fails, the page
contains the placeholder entry `⟨i, "[SPECIAL_TOKEN]", 0⟩` iff the search
string is empty; moreover a page built with a non-empty search contains no
placeholder entry (marker string with length 0).  The decode failure is
absorbed by the loop and never surfaced as an error: the helper is total. -/
theorem vocab_special_token_policy (enc : Encoding) (start limit : Int)
    (search : String) (i : Int)
    (hmem : i ∈ pyRange start (min (start + limit) (enc.n_vocab : Int)))
    (hfail : enc.decode [i] = none) :
    ((⟨i, "[SPECIAL_TOKEN]", 0⟩ : VocabEntry)
        ∈ (get_vocabulary_helper enc start limit search).vocabulary
      ↔ search = "") ∧
    (∀ e ∈ (get_vocabulary_helper enc start limit search).vocabulary,
      search ≠ "" → ¬(e.token_string = "[SPECIAL_TOKEN]" ∧ e.length = 0)) := by
  constructor
  · rw [mem_vocab_iff]
    show (i ∈ pyRange _ _ ∧ (⟨i, "[SPECIAL_TOKEN]", 0⟩ : VocabEntry)
      ∈ vocabStep enc search i) ↔ _
    rw [vocabStep_decode_none hfail]
    constructor
    · rintro ⟨-, he⟩
      by_contra hne
      rw [if_neg hne] at he
      simp at he
    · intro hs
      rw [if_pos hs]
      exact ⟨hmem, by simp⟩
  · rintro e he hs ⟨h1, h2⟩
    rw [mem_vocab_iff] at he
    obtain ⟨-, he⟩ := he
    cases hd : enc.decode [e.token_id] with
    | none =>
      rw [vocabStep_decode_none hd, if_neg hs] at he
      simp at he
    | some s =>
      rw [vocabStep_decode_some hd] at he
      split at he
      · rw [List.mem_singleton] at he
        rw [he] at h1 h2
        dsimp only at h1 h2
        subst h1
        exact absurd h2 (by decide)
      · simp at he

/-- Witness for C3: in `testEnc` token ID `2` fails to decode; with the
non-empty search `"o"` the page over `[0, 5)` contains no placeholder. -/
theorem vocab_special_token_policy_witness :
    ((2 : Int) ∈ pyRange 0 (min (0 + 5) ((testEnc.n_vocab : Int)))) ∧
    (testEnc.decode [2] = none) ∧
    (((⟨2, "[SPECIAL_TOKEN]", 0⟩ : VocabEntry)
        ∈ (get_vocabulary_helper testEnc 0 5 "o").vocabulary ↔ ("o" : String) = "") ∧
     (∀ e ∈ (get_vocabulary_helper testEnc 0 5 "o").vocabulary,
       ("o" : String) ≠ "" → ¬(e.token_string = "[SPECIAL_TOKEN]" ∧ e.length = 0))) :=
  ⟨by decide, by decide, vocab_special_token_policy testEnc 0 5 "o" 2 (by decide) (by decide)⟩

/-- C4: for every ID in the scanned window whose decode succeeds with string
`s`, the page contains the entry `⟨i, s, s.length⟩` (the ID, the decoded
string, and its character length) iff the search is empty or the case-folded
search is a substring of the case-folded decoded string. -/
theorem vocab_search_filter (enc : Encoding) (start limit : Int)
    (search : String) (i : Int) (s : String)
    (hmem : i ∈ pyRange start (min (start + limit) (enc.n_vocab : Int)))
    (hdec : enc.decode [i] = some s) :
    (⟨i, s, s.length⟩ : VocabEntry)
        ∈ (get_vocabulary_helper enc start limit search).vocabulary
      ↔ (search = "" ∨ pyInStr search.toLower s.toLower = true) := by
  rw [mem_vocab_iff]
  show (i ∈ pyRange _ _ ∧ (⟨i, s, s.length⟩ : VocabEntry)
    ∈ vocabStep enc search i) ↔ _
  rw [vocabStep_decode_some hdec]
  constructor
  · rintro ⟨-, he⟩
    split at he
    · assumption
    · simp at he
  · intro hcond
    rw [if_pos hcond]
    exact ⟨hmem, by simp⟩

/-- Witness for C4: in `testEnc` token ID `0` decodes to `"Hello"`, and the
search `"ell"` matches it case-insensitively. -/
theorem vocab_search_filter_witness :
    ((0 : Int) ∈ pyRange 0 (min (0 + 5) ((testEnc.n_vocab : Int)))) ∧
    (testEnc.decode [0] = some "Hello") ∧
    ((⟨0, "Hello", "Hello".length⟩ : VocabEntry)
        ∈ (get_vocabulary_helper testEnc 0 5 "ell").vocabulary
      ↔ (("ell" : String) = "" ∨ pyInStr "ell".toLower "Hello".toLower = true)) :=
  ⟨by decide, by decide, vocab_search_filter testEnc 0 5 "ell" 0 "Hello" (by decide) (by decide)⟩

/-- C5: for every call with `start ≥ 0` and `limit > 0`, the page has at most
`limit` entries, every returned `token_id` lies in
`[start, min (start + limit) vocabSize)`, the `token_id`s are strictly
ascending; and `vocabulary(start := 0, limit := 5, search := "")` returns
exactly the five token IDs `0, 1, 2, 3, 4` in order (when the vocabulary has
at least five entries). -/
theorem vocab_pagination_invariants (enc : Encoding) (start limit : Int)
    (search : String) (hs : 0 ≤ start) (hl : 0 < limit) :
    ((get_vocabulary_helper enc start limit search).vocabulary.length : Int) ≤ limit ∧
    (∀ e ∈ (get_vocabulary_helper enc start limit search).vocabulary,
      start ≤ e.token_id ∧ e.token_id < min (start + limit) (enc.n_vocab : Int)) ∧
    ((get_vocabulary_helper enc start limit search).vocabulary.map
        VocabEntry.token_id).Pairwise (· < ·) ∧
    (5 ≤ enc.n_vocab →
      (get_vocabulary_helper enc 0 5 "").vocabulary.map VocabEntry.token_id
        = [0, 1, 2, 3, 4]) := by
  refine ⟨?_, ?_, ?_, ?_⟩
  · have h1 : (get_vocabulary_helper enc start limit search).vocabulary.length
        = ((get_vocabulary_helper enc start limit search).vocabulary.map
            VocabEntry.token_id).length := (List.length_map _ _).symm
    rw [h1, vocab_map_token_id]
    have h2 := List.length_filter_le (vocabKeep enc search)
      (pyRange start (min (start + limit) (enc.n_vocab : Int)))
    have h3 : (pyRange start (min (start + limit) (enc.n_vocab : Int))).length
        = ((min (start + limit) (enc.n_vocab : Int)) - start).toNat := by
      simp [pyRange]
    rw [h3] at h2
    omega
  · intro e he
    rw [mem_vocab_iff] at he
    exact mem_pyRange.mp he.1
  · rw [vocab_map_token_id]
    exact (pyRange_pairwise _ _).filter _
  · intro h5
    rw [vocab_map_token_id,
      List.filter_eq_self.mpr (fun i _ => vocabKeep_of_empty_search enc i)]
    have hmin : min ((0 : Int) + 5) ((enc.n_vocab : Int)) = 5 := by omega
    rw [hmin]
    decide

/-- Witness for C5 at `testEnc`, `start = 1`, `limit = 3`, empty search. -/
theorem vocab_pagination_invariants_witness :
    ((0 : Int) ≤ 1 ∧ (0 : Int) < 3) ∧
    (((get_vocabulary_helper testEnc 1 3 "").vocabulary.length : Int) ≤ 3 ∧
     (∀ e ∈ (get_vocabulary_helper testEnc 1 3 "").vocabulary,
       1 ≤ e.token_id ∧ e.token_id < min (1 + 3) ((testEnc.n_vocab : Int))) ∧
     ((get_vocabulary_helper testEnc 1 3 "").vocabulary.map
         VocabEntry.token_id).Pairwise (· < ·) ∧
     (5 ≤ testEnc.n_vocab →
       (get_vocabulary_helper testEnc 0 5 "").vocabulary.map VocabEntry.token_id
         = [0, 1, 2, 3, 4])) :=
  ⟨⟨by decide, by decide⟩,
    vocab_pagination_invariants testEnc 1 3 "" (by decide) (by decide)⟩

theorem mapM_option_length {α β : Type} (f : α → Option β) :
    ∀ (l : List α) (l' : List β), l.mapM f = some l' → l'.length = l.length := by
  intro l
  induction l with
  | nil =>
    intro l' h
    rw [List.mapM_nil] at h
    cases h
    rfl
  | cons a l ih =>
    intro l' h
    rw [List.mapM_cons] at h
    cases hfa : f a <;> rw [hfa] at h
    · simp at h
    · cases hml : l.mapM f <;> rw [hml] at h
      · simp at h
      · simp only [Option.bind_eq_bind, Option.some_bind, Option.pure_def] at h
        cases h
        simp [ih _ hml]

/-- Destructuring of a successful `tokenize_text_helper` call: every field of
the result in terms of the resolved encoding. -/
theorem tokenize_spec {resolve : String → Option Encoding} {text model : String}
    {enc : Encoding} {r : TokenizeResult}
    (hres : resolve model = some enc)
    (h : tokenize_text_helper resolve text model = some r) :
    r.tokens = enc.encode text ∧
    r.tokens.mapM (fun token => enc.decode [token]) = some r.token_strings ∧
    r.count = r.tokens.length ∧
    r.token_details = (r.tokens.zip r.token_strings).enum.map (fun p =>
      (⟨p.1 + 1, p.2.1, p.2.2, p.2.2.utf8ByteSize⟩ : TokenDetail)) ∧
    r.model = model ∧ r.original_text = text := by
  unfold tokenize_text_helper at h
  rw [hres] at h
  dsimp only at h
  cases hm : (enc.encode text).mapM (fun token => enc.decode [token]) <;>
      rw [hm] at h <;> dsimp only at h
  · exact Option.noConfusion h
  · cases h
    exact ⟨rfl, hm, rfl, rfl, rfl, rfl⟩

/-- C6: for every text and resolvable model, a successful tokenize call
reports `count = (encode text).length`, `token_details` has exactly `count`
records, and the `position` fields are exactly `1, 2, ..., count` in order. -/
theorem tokenize_count_positions (resolve : String → Option Encoding)
    (text model : String) (enc : Encoding) (r : TokenizeResult)
    (hres : resolve model = some enc)
    (h : tokenize_text_helper resolve text model = some r) :
    r.count = (enc.encode text).length ∧
    r.token_details.length = r.count ∧
    r.token_details.map TokenDetail.position = List.range' 1 r.count := by
  obtain ⟨htok, hmap, hcount, hdet, -, -⟩ := tokenize_spec hres h
  have hlen : r.token_strings.length = r.tokens.length :=
    mapM_option_length _ _ _ hmap
  have hzlen : (r.tokens.zip r.token_strings).length = r.count := by
    rw [List.length_zip, hlen, hcount]
    exact Nat.min_self _
  refine ⟨by rw [hcount, htok], ?_, ?_⟩
  · rw [hdet, List.length_map, List.enum_length, hzlen]
  · rw [hdet, List.map_map]
    have hc : (TokenDetail.position ∘ fun p : Nat × (Int × String) =>
        (⟨p.1 + 1, p.2.1, p.2.2, p.2.2.utf8ByteSize⟩ : TokenDetail))
      = (fun x => x + 1) ∘ Prod.fst := rfl
    rw [hc, ← List.map_map, List.enum_map_fst, hzlen, List.range'_eq_map_range]
    exact List.map_congr_left fun x _ => Nat.add_comm x 1

/-- C7: for every text and resolvable model, a successful tokenize call
decodes each token ID individually: `token_strings` is the element-wise
decode of the one-element sequences `[tokens i]`, the `token_string` fields
of `token_details` are those strings, and each record's `byte_length` is the
UTF-8 byte length of that individually decoded string. -/
theorem tokenize_per_token_decode (resolve : String → Option Encoding)
    (text model : String) (enc : Encoding) (r : TokenizeResult)
    (hres : resolve model = some enc)
    (h : tokenize_text_helper resolve text model = some r) :
    r.tokens.mapM (fun token => enc.decode [token]) = some r.token_strings ∧
    r.token_details.map TokenDetail.token_string = r.token_strings ∧
    r.token_details.map TokenDetail.byte_length
      = r.token_strings.map String.utf8ByteSize := by
  obtain ⟨htok, hmap, hcount, hdet, -, -⟩ := tokenize_spec hres h
  have hlen : r.token_strings.length = r.tokens.length :=
    mapM_option_length _ _ _ hmap
  have hz : ((r.tokens.zip r.token_strings).enum).map Prod.snd
      = r.tokens.zip r.token_strings := List.enum_map_snd _
  have hz2 : (r.tokens.zip r.token_strings).map Prod.snd = r.token_strings :=
    List.map_snd_zip _ _ (le_of_eq hlen)
  refine ⟨hmap, ?_, ?_⟩
  · rw [hdet, List.map_map]
    have hc : (TokenDetail.token_string ∘ fun p : Nat × (Int × String) =>
        (⟨p.1 + 1, p.2.1, p.2.2, p.2.2.utf8ByteSize⟩ : TokenDetail))
      = Prod.snd ∘ Prod.snd := rfl
    rw [hc, ← List.map_map, hz, hz2]
  · rw [hdet, List.map_map]
    have hc : (TokenDetail.byte_length ∘ fun p : Nat × (Int × String) =>
        (⟨p.1 + 1, p.2.1, p.2.2, p.2.2.utf8ByteSize⟩ : TokenDetail))
      = String.utf8ByteSize ∘ (Prod.snd ∘ Prod.snd) := rfl
    rw [hc, ← List.map_map, ← List.map_map, hz, hz2]

/-- The concrete result of tokenizing `"ab"` with `testEnc`. -/
def rAB : TokenizeResult where
  tokens := [0, 1]
  token_strings := ["Hello", " world"]
  count := 2
  token_details := [⟨1, 0, "Hello", 5⟩, ⟨2, 1, " world", 6⟩]
  model := "gpt-3.5-turbo"
  original_text := "ab"

/-- Witness for C6: tokenizing `"ab"` with the resolvable model
`"gpt-3.5-turbo"` yields two tokens with positions `1, 2`. -/
theorem tokenize_count_positions_witness :
    (testResolve "gpt-3.5-turbo" = some testEnc) ∧
    (tokenize_text_helper testResolve "ab" "gpt-3.5-turbo" = some rAB) ∧
    (rAB.count = (testEnc.encode "ab").length ∧
     rAB.token_details.length = rAB.count ∧
     rAB.token_details.map TokenDetail.position = List.range' 1 rAB.count) :=
  ⟨by rfl, by decide,
    tokenize_count_positions testResolve "ab" "gpt-3.5-turbo" testEnc rAB
      (by rfl) (by decide)⟩

/-- Witness for C7 on the same concrete call. -/
theorem tokenize_per_token_decode_witness :
    (testResolve "gpt-3.5-turbo" = some testEnc) ∧
    (tokenize_text_helper testResolve "ab" "gpt-3.5-turbo" = some rAB) ∧
    (rAB.tokens.mapM (fun token => testEnc.decode [token]) = some rAB.token_strings ∧
     rAB.token_details.map TokenDetail.token_string = rAB.token_strings ∧
     rAB.token_details.map TokenDetail.byte_length
       = rAB.token_strings.map String.utf8ByteSize) :=
  ⟨by rfl, by decide,
    tokenize_per_token_decode testResolve "ab" "gpt-3.5-turbo" testEnc rAB
      (by rfl) (by decide)⟩

/-- C9: the stats reporter is total (it is a Lean function into `Stats`, not
an `Option`) and a pure function of the process configuration: for any active
encoding it returns exactly its name, its vocabulary size, the fixed
description, and the fixed list of supported model identifiers, with no
dependence on any request input. -/
theorem stats_constant (enc : Encoding) :
    get_stats_helper enc =
      { encoding_name := enc.name
        total_tokens := enc.n_vocab
        description := "GPT-3.5/GPT-4 vocabulary (cl100k_base)"
        supported_models := ["gpt-3.5-turbo", "gpt-4", "gpt-4-turbo"] } := rfl

/-- In `testEnc`, every negative token ID fails to decode (tiktoken raises on
IDs outside the vocabulary). -/
theorem testEnc_decode_neg : ∀ i : Int, i < 0 → testEnc.decode [i] = none := by
  intro i hi
  show (if i = 2 then none
    else if i = 0 then some "Hello"
    else if i = 1 then some " world"
    else if i = 3 then some ""
    else if i = 4 then some "he"
    else none) = none
  rw [if_neg (by omega), if_neg (by omega), if_neg (by omega),
    if_neg (by omega), if_neg (by omega)]

/-- C10: the vocabulary page builder accepts a negative `start` without
validation and returns normally; with an empty search, every negative ID in
the scanned window (decode of a negative ID fails) yields a placeholder entry
`⟨i, "[SPECIAL_TOKEN]", 0⟩` whose `token_id` is negative, so the data-model
bound `0 ≤ start` is not enforced. -/
theorem vocab_negative_start (enc : Encoding) (start limit : Int)
    (hneg : ∀ i : Int, i < 0 → enc.decode [i] = none)
    (hstart : start < 0) (i : Int)
    (hmem : i ∈ pyRange start (min (start + limit) (enc.n_vocab : Int)))
    (hi : i < 0) :
    (⟨i, "[SPECIAL_TOKEN]", 0⟩ : VocabEntry)
      ∈ (get_vocabulary_helper enc start limit "").vocabulary := by
  rw [mem_vocab_iff]
  show i ∈ pyRange _ _ ∧ (⟨i, "[SPECIAL_TOKEN]", 0⟩ : VocabEntry)
    ∈ vocabStep enc "" i
  refine ⟨hmem, ?_⟩
  rw [vocabStep_decode_none (hneg i hi)]
  simp

/-- Witness for C10 at `start = -2`, `limit = 3` on `testEnc`: ID `-2` is
reported as a placeholder with a negative `token_id`. -/
theorem vocab_negative_start_witness :
    (∀ i : Int, i < 0 → testEnc.decode [i] = none) ∧
    ((-2 : Int) < 0) ∧
    ((-2 : Int) ∈ pyRange (-2) (min (-2 + 3) ((testEnc.n_vocab : Int)))) ∧
    ((⟨-2, "[SPECIAL_TOKEN]", 0⟩ : VocabEntry)
      ∈ (get_vocabulary_helper testEnc (-2) 3 "").vocabulary) :=
  ⟨testEnc_decode_neg, by decide, by decide,
    vocab_negative_start testEnc (-2) 3 testEnc_decode_neg (by decide) (-2)
      (by decide) (by decide)⟩

/-! ## A byte-level model of the external BPE encoder (for claim C8)

The round-trip property of C8 is decided by the external encoder
(`tiktoken`), which is not part of this repository.  Per §6 of the spec the
encoder may be "any BPE tokenizer library": every token ID owns a fixed byte
sequence, bulk decode concatenates the byte sequences of the IDs and decodes
the result as UTF-8 with replacement of invalid sequences (this is
`bytes.decode("utf-8", errors="replace")` semantics). -/

/-- The Unicode replacement character U+FFFD. -/
def replChar : Char := Char.ofNat 0xFFFD

/-- Action of a lead byte in the decoder: either a complete ASCII character,
the start of a 2-, 3- or 4-byte sequence (accumulated value and number of
continuation bytes still expected), or an invalid byte replaced by
`replChar`. -/
def utf8Lead (b : Nat) : Option (Nat × Nat) × List Char :=
  if b < 0x80 then (none, [Char.ofNat b])
  else if 0xC0 ≤ b ∧ b ≤ 0xDF then (some (b - 0xC0, 1), [])
  else if 0xE0 ≤ b ∧ b ≤ 0xEF then (some (b - 0xE0, 2), [])
  else if 0xF0 ≤ b ∧ b ≤ 0xF7 then (some (b - 0xF0, 3), [])
  else (none, [replChar])

/-- One byte of UTF-8 decoding with replacement: the state is `none` between
characters and `some (v, n)` while `n` more continuation bytes are expected
for a character with accumulated value `v`.  A non-continuation byte in the
middle of a sequence replaces the broken sequence with `replChar` and is then
itself treated as a lead byte. -/
def utf8Step : Option (Nat × Nat) → Nat → Option (Nat × Nat) × List Char
  | none, b => utf8Lead b
  | some (v, n), b =>
    if 0x80 ≤ b ∧ b ≤ 0xBF then
      if n ≤ 1 then (none, [Char.ofNat (v * 0x40 + (b - 0x80))])
      else (some (v * 0x40 + (b - 0x80), n - 1), [])
    else (( utf8Lead b).1, replChar :: ( utf8Lead b).2)

/-- Run of the UTF-8 decoder over a byte list from a given state; a byte
sequence left incomplete at the end of input is replaced by `replChar`. -/
def utf8Run : Option (Nat × Nat) → List Nat → List Char
  | s, [] => match s with | none => [] | some _ => [replChar]
  | s, b :: rest => (utf8Step s b).2 ++ utf8Run (utf8Step s b).1 rest

/-- UTF-8 decoding of a byte list into a string, with replacement (the model
of Python's `bytes.decode("utf-8", errors="replace")`). -/
def utf8DecodeReplace (l : List Nat) : String :=
  String.mk (utf8Run none l)

/-- `ValidSeq bytes chars`: `bytes` is a concatenation of complete well-formed
UTF-8 byte sequences decoding to `chars`. -/
inductive ValidSeq : List Nat → List Char → Prop where
  | nil : ValidSeq [] []
  | one {b : Nat} {rest : List Nat} {cs : List Char} :
      b < 0x80 → ValidSeq rest cs → ValidSeq (b :: rest) (Char.ofNat b :: cs)
  | two {b b1 : Nat} {rest : List Nat} {cs : List Char} :
      0xC0 ≤ b → b ≤ 0xDF → 0x80 ≤ b1 → b1 ≤ 0xBF → ValidSeq rest cs →
      ValidSeq (b :: b1 :: rest)
        (Char.ofNat ((b - 0xC0) * 0x40 + (b1 - 0x80)) :: cs)
  | three {b b1 b2 : Nat} {rest : List Nat} {cs : List Char} :
      0xE0 ≤ b → b ≤ 0xEF → 0x80 ≤ b1 → b1 ≤ 0xBF → 0x80 ≤ b2 → b2 ≤ 0xBF →
      ValidSeq rest cs →
      ValidSeq (b :: b1 :: b2 :: rest)
        (Char.ofNat (((b - 0xE0) * 0x40 + (b1 - 0x80)) * 0x40 + (b2 - 0x80)) :: cs)
  | four {b b1 b2 b3 : Nat} {rest : List Nat} {cs : List Char} :
      0xF0 ≤ b → b ≤ 0xF7 → 0x80 ≤ b1 → b1 ≤ 0xBF → 0x80 ≤ b2 → b2 ≤ 0xBF →
      0x80 ≤ b3 → b3 ≤ 0xBF → ValidSeq rest cs →
      ValidSeq (b :: b1 :: b2 :: b3 :: rest)
        (Char.ofNat ((((b - 0xF0) * 0x40 + (b1 - 0x80)) * 0x40 + (b2 - 0x80))
          * 0x40 + (b3 - 0x80)) :: cs)

theorem utf8Step_none (b : Nat) : utf8Step none b = utf8Lead b := rfl

theorem utf8Run_cons (s : Option (Nat × Nat)) (b : Nat) (rest : List Nat) :
    utf8Run s (b :: rest) = (utf8Step s b).2 ++ utf8Run (utf8Step s b).1 rest := rfl

theorem utf8Lead_ascii {b : Nat} (h : b < 0x80) :
    utf8Lead b = (none, [Char.ofNat b]) := by
  unfold utf8Lead
  rw [if_pos h]

theorem utf8Lead_two {b : Nat} (h1 : 0xC0 ≤ b) (h2 : b ≤ 0xDF) :
    utf8Lead b = (some (b - 0xC0, 1), []) := by
  unfold utf8Lead
  rw [if_neg (by omega), if_pos ⟨h1, h2⟩]

theorem utf8Lead_three {b : Nat} (h1 : 0xE0 ≤ b) (h2 : b ≤ 0xEF) :
    utf8Lead b = (some (b - 0xE0, 2), []) := by
  unfold utf8Lead
  rw [if_neg (by omega), if_neg (by omega), if_pos ⟨h1, h2⟩]

theorem utf8Lead_four {b : Nat} (h1 : 0xF0 ≤ b) (h2 : b ≤ 0xF7) :
    utf8Lead b = (some (b - 0xF0, 3), []) := by
  unfold utf8Lead
  rw [if_neg (by omega), if_neg (by omega), if_neg (by omega), if_pos ⟨h1, h2⟩]

theorem utf8Step_cont_last {v b : Nat} (h1 : 0x80 ≤ b) (h2 : b ≤ 0xBF) :
    utf8Step (some (v, 1)) b = (none, [Char.ofNat (v * 0x40 + (b - 0x80))]) := by
  unfold utf8Step
  dsimp only
  rw [if_pos ⟨h1, h2⟩, if_pos (le_refl 1)]

theorem utf8Step_cont_mid {v n b : Nat} (h1 : 0x80 ≤ b) (h2 : b ≤ 0xBF)
    (h3 : 2 ≤ n) :
    utf8Step (some (v, n)) b = (some (v * 0x40 + (b - 0x80), n - 1), []) := by
  unfold utf8Step
  dsimp only
  rw [if_pos ⟨h1, h2⟩, if_neg (by omega)]

/-- Decoding a valid byte prefix consumes exactly that prefix, whatever
follows. -/
theorem utf8Run_append {a : List Nat} {cs : List Char}
    (h : ValidSeq a cs) (bb : List Nat) :
    utf8Run none (a ++ bb) = cs ++ utf8Run none bb := by
  induction h with
  | nil => rfl
  | one hb hrec ih =>
    rw [List.cons_append, utf8Run_cons, utf8Step_none, utf8Lead_ascii hb]
    dsimp only
    rw [ih]
    rfl
  | two hb1 hb2 hc1 hc2 hrec ih =>
    rw [List.cons_append, List.cons_append, utf8Run_cons, utf8Step_none,
      utf8Lead_two hb1 hb2]
    dsimp only
    rw [utf8Run_cons, utf8Step_cont_last hc1 hc2]
    dsimp only
    rw [ih]
    rfl
  | three hb1 hb2 hc1 hc2 hd1 hd2 hrec ih =>
    rw [List.cons_append, List.cons_append, List.cons_append, utf8Run_cons,
      utf8Step_none, utf8Lead_three hb1 hb2]
    dsimp only
    rw [utf8Run_cons, utf8Step_cont_mid hc1 hc2 (le_refl 2)]
    dsimp only
    rw [utf8Run_cons, utf8Step_cont_last hd1 hd2]
    dsimp only
    rw [ih]
    rfl
  | four hb1 hb2 hc1 hc2 hd1 hd2 he1 he2 hrec ih =>
    rw [List.cons_append, List.cons_append, List.cons_append, List.cons_append,
      utf8Run_cons, utf8Step_none, utf8Lead_four hb1 hb2]
    dsimp only
    rw [utf8Run_cons, utf8Step_cont_mid hc1 hc2 (by omega)]
    dsimp only
    rw [utf8Run_cons, utf8Step_cont_mid hd1 hd2 (by omega)]
    dsimp only
    rw [utf8Run_cons, utf8Step_cont_last he1 he2]
    dsimp only
    rw [ih]
    rfl

/-- Decoding a byte list that is a concatenation of complete valid UTF-8
sequences yields exactly its characters. -/
theorem utf8Run_valid {a : List Nat} {cs : List Char} (h : ValidSeq a cs) :
    utf8Run none a = cs := by
  have h2 := utf8Run_append h []
  rw [List.append_nil] at h2
  rw [h2]
  simp [utf8Run]

theorem utf8Run_join : ∀ bss : List (List Nat),
    (∀ bs ∈ bss, ∃ cs, ValidSeq bs cs) →
    utf8Run none bss.flatten = (bss.map (fun l => utf8Run none l)).flatten := by
  intro bss
  induction bss with
  | nil => intro _; rfl
  | cons bs bss ih =>
    intro hv
    obtain ⟨cs, hcs⟩ := hv bs (List.mem_cons_self _ _)
    rw [List.flatten_cons, utf8Run_append hcs, List.map_cons, List.flatten_cons,
      utf8Run_valid hcs, ih (fun x hx => hv x (List.mem_cons_of_mem _ hx))]

theorem stringMk_append (a b : List Char) :
    String.mk a ++ String.mk b = String.mk (a ++ b) := rfl

theorem stringJoin_mk_aux : ∀ (l : List (List Char)) (acc : List Char),
    List.foldl (· ++ ·) (String.mk acc) (l.map String.mk)
      = String.mk (acc ++ l.flatten)
  | [], acc => by simp
  | bs :: l, acc => by
    rw [List.map_cons, List.foldl_cons, stringMk_append,
      stringJoin_mk_aux l (acc ++ bs), List.flatten_cons, List.append_assoc]

theorem stringJoin_mk (l : List (List Char)) :
    String.join (l.map String.mk) = String.mk l.flatten := by
  have h := stringJoin_mk_aux l []
  rw [List.nil_append] at h
  exact h

/-- Modelled from the spec: the external Vocabulary Encoder (`tiktoken`) is
not part of this repository; per §6 it may be "any BPE tokenizer library".
Each token ID owns a byte sequence (`table`); bulk `decode` concatenates the
byte sequences of the requested IDs and decodes the result as UTF-8 with
replacement (an ID outside the table makes the call raise, i.e. `none`);
`encode` is the library's text-to-IDs function, left abstract. -/
def bpeEncoding (name : String) (nv : Nat) (table : Int → Option (List Nat))
    (encf : String → List Int) : Encoding where
  name := name
  n_vocab := nv
  encode := encf
  decode := fun toks =>
    match toks.mapM table with
    | none => none
    | some bss => some (utf8DecodeReplace bss.flatten)

theorem bpe_decode_one {name : String} {nv : Nat}
    {table : Int → Option (List Nat)} {encf : String → List Int}
    {t : Int} {bs : List Nat} (hbs : table t = some bs) :
    (bpeEncoding name nv table encf).decode [t]
      = some (utf8DecodeReplace bs) := by
  show (match ([t] : List Int).mapM table with
    | none => none
    | some bss => some (utf8DecodeReplace bss.flatten)) = _
  rw [List.mapM_cons, hbs, List.mapM_nil]
  dsimp only [Option.pure_def, Option.bind_eq_bind, Option.some_bind]
  rw [show (([bs] : List (List Nat)).flatten) = bs by simp]

theorem bpe_decode_one_none {name : String} {nv : Nat}
    {table : Int → Option (List Nat)} {encf : String → List Int}
    {t : Int} (hbs : table t = none) :
    (bpeEncoding name nv table encf).decode [t] = none := by
  show (match ([t] : List Int).mapM table with
    | none => none
    | some bss => some (utf8DecodeReplace bss.flatten)) = _
  rw [List.mapM_cons, hbs]
  rfl

theorem bpe_mapM_decodeOne {name : String} {nv : Nat}
    {table : Int → Option (List Nat)} {encf : String → List Int} :
    ∀ (toks : List Int) (strs : List String),
      toks.mapM (fun token => (bpeEncoding name nv table encf).decode [token])
        = some strs →
      ∃ bss : List (List Nat),
        toks.mapM table = some bss ∧ strs = bss.map utf8DecodeReplace := by
  intro toks
  induction toks with
  | nil =>
    intro strs h
    rw [List.mapM_nil] at h
    cases h
    exact ⟨[], rfl, rfl⟩
  | cons t toks ih =>
    intro strs h
    rw [List.mapM_cons] at h
    cases ht : table t
    · rw [bpe_decode_one_none ht] at h
      simp at h
    · rename_i bs
      rw [bpe_decode_one ht] at h
      cases hm : toks.mapM
          (fun token => (bpeEncoding name nv table encf).decode [token]) <;>
          rw [hm] at h
      · simp at h
      · rename_i ss
        simp only [Option.pure_def, Option.bind_eq_bind, Option.some_bind,
          Option.some.injEq] at h
        obtain ⟨bss, hbss, hss⟩ := ih ss hm
        refine ⟨bs :: bss, ?_, ?_⟩
        · rw [List.mapM_cons, ht, hbss]
          rfl
        · rw [← h, List.map_cons, hss]

theorem mem_of_mapM_table {table : Int → Option (List Nat)} :
    ∀ (toks : List Int) (bss : List (List Nat)),
      toks.mapM table = some bss →
      ∀ bs ∈ bss, ∃ t ∈ toks, table t = some bs := by
  intro toks
  induction toks with
  | nil =>
    intro bss h
    rw [List.mapM_nil] at h
    cases h
    intro bs hbs
    simp at hbs
  | cons t toks ih =>
    intro bss h
    rw [List.mapM_cons] at h
    cases ht : table t <;> rw [ht] at h
    · simp at h
    · rename_i b
      cases hm : toks.mapM table <;> rw [hm] at h
      · simp at h
      · rename_i rest
        simp only [Option.pure_def, Option.bind_eq_bind, Option.some_bind,
          Option.some.injEq] at h
        intro bs hbs
        rw [← h] at hbs
        rcases List.mem_cons.mp hbs with hbs | hbs
        · exact ⟨t, List.mem_cons_self _ _, by rw [ht, hbs]⟩
        · obtain ⟨t', ht', htab⟩ := ih rest hm bs hbs
          exact ⟨t', List.mem_cons_of_mem _ ht', htab⟩

/-- C8 (amended): for the byte-level BPE model of the external encoder,
concatenating the per-token decoded strings of a successful tokenize call
equals the bulk decode of the full token-ID sequence provided every token's
byte sequence is itself a concatenation of complete well-formed UTF-8
sequences; without that proviso the equality can fail (see the
counterexample, where one character's bytes span two tokens). -/
theorem tokenize_concat_bulk_decode (name : String) (nv : Nat)
    (table : Int → Option (List Nat)) (encf : String → List Int)
    (resolve : String → Option Encoding) (text model : String)
    (r : TokenizeResult)
    (hres : resolve model = some (bpeEncoding name nv table encf))
    (h : tokenize_text_helper resolve text model = some r)
    (hvalid : ∀ t ∈ r.tokens, ∃ bs cs, table t = some bs ∧ ValidSeq bs cs) :
    (bpeEncoding name nv table encf).decode r.tokens
      = some (String.join r.token_strings) := by
  obtain ⟨-, hmap, -, -, -, -⟩ := tokenize_spec hres h
  obtain ⟨bss, hbss, hstrs⟩ := bpe_mapM_decodeOne r.tokens r.token_strings hmap
  have hv : ∀ bs ∈ bss, ∃ cs, ValidSeq bs cs := by
    intro bs hbs
    obtain ⟨t, ht, htab⟩ := mem_of_mapM_table r.tokens bss hbss bs hbs
    obtain ⟨bs', cs, htab', hvs⟩ := hvalid t ht
    rw [htab] at htab'
    cases htab'
    exact ⟨cs, hvs⟩
  show (match r.tokens.mapM table with
    | none => none
    | some bss => some (utf8DecodeReplace bss.flatten)) = _
  rw [hbss, hstrs]
  show some (utf8DecodeReplace bss.flatten) = _
  unfold utf8DecodeReplace
  rw [show bss.map (fun l => String.mk (utf8Run none l))
      = (bss.map (fun l => utf8Run none l)).map String.mk from
    by rw [List.map_map]; rfl]
  rw [stringJoin_mk, utf8Run_join bss hv]

/-- A BPE byte table in which the two bytes of `"é"` (U+00E9, bytes
`0xC3 0xA9`) are split across the two token IDs. -/
def splitTable : Int → Option (List Nat) := fun t =>
  if t = 0 then some [0xC3] else if t = 1 then some [0xA9] else none

def splitEncode : String → List Int := fun s => if s = "é" then [0, 1] else []

/-- The modelled encoder whose two tokens split one character's bytes. -/
def splitEnc : Encoding := bpeEncoding "bpe-split" 2 splitTable splitEncode

/-- The concrete result of tokenizing `"é"` with `splitEnc`: each half of the
character decodes to the replacement character U+FFFD. -/
def rSplit : TokenizeResult where
  tokens := [0, 1]
  token_strings := ["�", "�"]
  count := 2
  token_details := [⟨1, 0, "�", 3⟩, ⟨2, 1, "�", 3⟩]
  model := "m"
  original_text := "é"

/-- C8 counterexample: tokenizing `"é"` with the modelled BPE encoder whose
two tokens split the character's two UTF-8 bytes succeeds, the bulk decode of
the full token sequence is `"é"`, but the concatenation of the per-token
decoded strings is two replacement characters, not `"é"`. -/
theorem tokenize_concat_counterexample :
    tokenize_text_helper (fun _ => some splitEnc) "é" "m" = some rSplit ∧
    splitEnc.decode rSplit.tokens = some "é" ∧
    String.join rSplit.token_strings ≠ "é" := by
  refine ⟨by decide, by decide, by decide⟩

def wTable : Int → Option (List Nat) := fun t =>
  if t = 0 then some [0x61] else if t = 1 then some [0xC3, 0xA9] else none

def wEncode : String → List Int := fun s => if s = "aé" then [0, 1] else []

/-- A modelled encoder whose every token owns complete UTF-8 sequences. -/
def wEnc : Encoding := bpeEncoding "bpe-w" 2 wTable wEncode

/-- The concrete result of tokenizing `"aé"` with `wEnc`. -/
def rW : TokenizeResult where
  tokens := [0, 1]
  token_strings := ["a", "é"]
  count := 2
  token_details := [⟨1, 0, "a", 1⟩, ⟨2, 1, "é", 2⟩]
  model := "m"
  original_text := "aé"

/-- Witness for C8 (amended) on `wEnc`, whose tokens decode to `"a"` and
`"é"`: the concatenation `"aé"` equals the bulk decode. -/
theorem tokenize_concat_bulk_decode_witness :
    ((fun _ : String => some wEnc) "m" = some (bpeEncoding "bpe-w" 2 wTable wEncode)) ∧
    (tokenize_text_helper (fun _ => some wEnc) "aé" "m" = some rW) ∧
    (∀ t ∈ rW.tokens, ∃ bs cs, wTable t = some bs ∧ ValidSeq bs cs) ∧
    ((bpeEncoding "bpe-w" 2 wTable wEncode).decode rW.tokens
      = some (String.join rW.token_strings)) := by
  have hv : ∀ t ∈ rW.tokens, ∃ bs cs, wTable t = some bs ∧ ValidSeq bs cs := by
    intro t ht
    have ht' : t = 0 ∨ t = 1 := by simpa [rW] using ht
    rcases ht' with rfl | rfl
    · exact ⟨[0x61], [Char.ofNat 0x61], rfl,
        ValidSeq.one (by omega) ValidSeq.nil⟩
    · exact ⟨[0xC3, 0xA9], [Char.ofNat ((0xC3 - 0xC0) * 0x40 + (0xA9 - 0x80))],
        rfl, ValidSeq.two (by omega) (by omega) (by omega) (by omega) ValidSeq.nil⟩
  exact ⟨rfl, by decide, hv,
    tokenize_concat_bulk_decode "bpe-w" 2 wTable wEncode (fun _ => some wEnc)
      "aé" "m" rW rfl (by decide) hv⟩

end Tokenizer
